import Mathlib

/-!
Shallow embedding of the box-pushing game's level-simulation core
(`src/map.rs`, `src/game.rs`, `src/main.rs`).

Conventions of the embedding:
* Rust `i32` coordinates become `Int` (no arithmetic here can overflow on the
  inputs considered); Rust `u32` ids and the level index become `Nat`.
* `Vec<Tile>` becomes `List Tile`; mutable iteration over collected indices is
  modelled by recursion over the list of indices into the tile list.
* `HashMap<Id, bool>` (used only through `get` / `insert` / `contains_key`,
  never iterated) becomes a function `Nat → Option Bool`.
* A Rust panic (`unwrap` on `None`, `todo!()`) is modelled by returning `none`
  from an `Option`-valued function.
-/

namespace BoxGame

/-- `Direction` from `main.rs`. -/
inductive Direction
  | Up
  | Right
  | Down
  | Left
deriving DecidableEq, Repr

/-- `Direction::get_vec2_move` from `main.rs`: the `(dy, dx)` unit vector. -/
def Direction.get_vec2_move : Direction → Int × Int
  | .Up => (-1, 0)
  | .Down => (1, 0)
  | .Left => (0, -1)
  | .Right => (0, 1)

/-- `TileType` from `map.rs`; `Door` carries the optional button id and the
open flag (Rust `Door(Option<Id>, bool)`). -/
inductive TileType
  | Empty
  | Wall1
  | PushBox
  | Button (id : Nat)
  | Door (idOpt : Option Nat) (isOpen : Bool)
  | WinPad
deriving DecidableEq, Repr

/-- `Event` from `map.rs`. -/
inductive Event
  | Nothing
  | PressButton
  | Win
deriving DecidableEq, Repr

/-- `TileType::is_solid`: true for `Wall1` and for closed doors. -/
def TileType.is_solid : TileType → Bool
  | .Wall1 => true
  | .Door _ false => true
  | _ => false

/-- `TileType::is_pushable`: true only for `PushBox`. -/
def TileType.is_pushable : TileType → Bool
  | .PushBox => true
  | _ => false

/-- `TileType::stood_on_event`. -/
def TileType.stood_on_event : TileType → Event
  | .WinPad => .Win
  | .Button _ => .PressButton
  | _ => .Nothing

/-- `Tile` from `map.rs`: a position `(y, x)` and a tile type. -/
structure Tile where
  y : Int
  x : Int
  tile_type : TileType
deriving DecidableEq, Repr

/-- `Tile::new`. -/
def Tile.new (y x : Int) (tile_type : TileType) : Tile :=
  ⟨y, x, tile_type⟩

/-- `Tile::new_wall`: a run of `len` tiles starting at `(y, x)` stepping by
the direction vector. -/
def Tile.new_wall (y x : Int) (tile_type : TileType) (direction : Direction)
    (len : Nat) : List Tile :=
  let change := direction.get_vec2_move
  (List.range len).map fun i =>
    Tile.new (y + (i : Int) * change.1) (x + (i : Int) * change.2) tile_type

/-- `Tile::move_tile`: translate the tile by the direction's unit vector. -/
def Tile.move_tile (t : Tile) (direction : Direction) : Tile :=
  let change := direction.get_vec2_move
  { t with y := t.y + change.1, x := t.x + change.2 }

/-- `Player` from `game.rs`. -/
structure Player where
  y : Int
  x : Int
  glyph : Char
deriving DecidableEq, Repr

/-- `Player::move_pos`. -/
def Player.move_pos (p : Player) (direction : Direction) : Player :=
  let change := direction.get_vec2_move
  { p with y := p.y + change.1, x := p.x + change.2 }

/-- `MapData` from `map.rs`. -/
structure MapData where
  tile_map : List Tile
  player_spawn : Int × Int
  flavor_text : Option String
deriving DecidableEq, Repr

/-- `MapData::tile_count`. -/
def MapData.tile_count (m : MapData) : Nat :=
  m.tile_map.length

/-- `MapData::immut_tiles_at`: all tiles whose position is `(y, x)`, in
`tile_map` order. -/
def MapData.immut_tiles_at (m : MapData) (y x : Int) : List Tile :=
  m.tile_map.filter fun t => t.y == y && t.x == x

/-- `MapData::num_solid_or_pushable_tiles_at`. -/
def MapData.num_solid_or_pushable_tiles_at (m : MapData) (y x : Int) : Nat :=
  (m.tile_map.filter fun t =>
    t.y == y && t.x == x && (t.tile_type.is_solid || t.tile_type.is_pushable)).length

/-- The indices (in `tile_map` order) of the tiles at `(y, x)`: the model of
`MapData::tiles_at`, which collects mutable references before the scan loop
of `player_move` runs. -/
def MapData.tile_indices_at (m : MapData) (y x : Int) : List Nat :=
  (List.range m.tile_map.length).filter fun i =>
    match m.tile_map[i]? with
    | some t => t.y == y && t.x == x
    | none => false

/-- The scan loop of `MapData::player_move` over the collected indices.
Returns the updated tile list and whether the player may move.  A solid tile
causes the Rust early `return` and a blocked push (`tiles_past_tile != 0`)
sets `can_move = false` and `break`s; both leave the tiles mutated so far and
keep the player in place, so both are modelled by returning `false`. -/
def scanTiles (direction : Direction) (tiles_past_tile : Nat) :
    List Nat → List Tile → List Tile × Bool
  | [], tiles => (tiles, true)
  | i :: rest, tiles =>
    match tiles[i]? with
    | none => scanTiles direction tiles_past_tile rest tiles
    | some t =>
      if t.tile_type.is_solid then (tiles, false)
      else if t.tile_type.is_pushable then
        if tiles_past_tile == 0 then
          scanTiles direction tiles_past_tile rest (tiles.set i (t.move_tile direction))
        else (tiles, false)
      else scanTiles direction tiles_past_tile rest tiles

/-- `MapData::player_move` from `map.rs`: resolve one movement step, possibly
pushing boxes, returning the updated map and player. -/
def MapData.player_move (m : MapData) (player : Player) (direction : Direction) :
    MapData × Player :=
  let change := direction.get_vec2_move
  let new_y := player.y + change.1
  let new_x := player.x + change.2
  let tiles_past_tile :=
    m.num_solid_or_pushable_tiles_at (new_y + change.1) (new_x + change.2)
  let idxs := m.tile_indices_at new_y new_x
  let res := scanTiles direction tiles_past_tile idxs m.tile_map
  ({ m with tile_map := res.1 },
   if res.2 then player.move_pos direction else player)

/-- Model of `HashMap::insert` on the `ids_satiated` map. -/
def insertId (f : Nat → Option Bool) (id : Nat) (b : Bool) : Nat → Option Bool :=
  fun j => if j = id then some b else f j

/-- One iteration of the button loop in `MapData::update_button_status`:
default the id to `true` if unseen, then overwrite with `false` if neither
the player nor any push box stands on this button. -/
def buttonStep (player : Player) (push_boxes : List Tile)
    (acc : Nat → Option Bool) (button : Tile) : Nat → Option Bool :=
  match button.tile_type with
  | .Button id =>
    let acc1 := if (acc id).isSome then acc else insertId acc id true
    let touched_by_box :=
      push_boxes.any fun pbox => pbox.y == button.y && pbox.x == button.x
    if (player.y != button.y || player.x != button.x) && !touched_by_box then
      insertId acc1 id false
    else acc1
  | _ => acc

/-- The `ids_satiated` map computed by the first half of
`MapData::update_button_status`. -/
def MapData.ids_satiated (m : MapData) (player : Player) : Nat → Option Bool :=
  let buttons := m.tile_map.filter fun t =>
    match t.tile_type with
    | .Button _ => true
    | _ => false
  let push_boxes := m.tile_map.filter fun t => t.tile_type == .PushBox
  buttons.foldl (buttonStep player push_boxes) fun _ => none

/-- One iteration of the door loop in `MapData::update_button_status`:
linked doors whose id is satisfied are set open; everything else is left
untouched. -/
def doorStep (sat : Nat → Option Bool) (t : Tile) : Tile :=
  match t.tile_type with
  | .Door (some id) _ =>
    if (sat id).getD false then { t with tile_type := .Door (some id) true }
    else t
  | _ => t

/-- `MapData::update_button_status` from `map.rs`. -/
def MapData.update_button_status (m : MapData) (player : Player) : MapData :=
  { m with tile_map := m.tile_map.map (doorStep (m.ids_satiated player)) }

/-- `GameContext` from `game.rs`; `level` is the Rust `u32` level index. -/
structure GameContext where
  player : Player
  map_data : Option MapData
  map_list : List MapData
  level : Nat
deriving DecidableEq, Repr

/-- `GameContext::load_current_level`; `none` models the `todo!()` panic when
`level` is out of range. -/
def GameContext.load_current_level (c : GameContext) : Option GameContext :=
  match c.map_list[c.level]? with
  | none => none
  | some map =>
    some { c with
            map_data := some map,
            player := { c.player with
                          y := map.player_spawn.1,
                          x := map.player_spawn.2 } }

/-- `GameContext::increment_level`. -/
def GameContext.increment_level (c : GameContext) : Option GameContext :=
  GameContext.load_current_level { c with level := c.level + 1 }

/-- `GameContext::player_movement`; `none` models the `unwrap` panic when no
level is active. -/
def GameContext.player_movement (c : GameContext) (direction : Direction) :
    Option GameContext :=
  match c.map_data with
  | none => none
  | some m =>
    let res := m.player_move c.player direction
    some { c with map_data := some res.1, player := res.2 }

/-- `GameContext::collect_events`; `none` models the `unwrap` panic when no
level is active. -/
def GameContext.collect_events (c : GameContext) : Option (List Event) :=
  match c.map_data with
  | none => none
  | some m =>
    some ((m.immut_tiles_at c.player.y c.player.x).map
      fun t => t.tile_type.stood_on_event)

/-- The event loop of `GameContext::update_all`: each `Win` event calls
`increment_level`. -/
def processEvents : List Event → GameContext → Option GameContext
  | [], c => some c
  | e :: rest, c =>
    if e = Event.Win then
      match c.increment_level with
      | none => none
      | some c2 => processEvents rest c2
    else processEvents rest c

/-- `GameContext::update_all` from `game.rs`: collect the events once, run
`increment_level` for each `Win` event, then recompute the button/door
status on the (possibly reloaded) active level; `none` propagates the
panics of the called operations. -/
def GameContext.update_all (c : GameContext) : Option GameContext :=
  c.collect_events.bind fun events =>
    (processEvents events c).bind fun c2 =>
      c2.map_data.map fun m =>
        { c2 with map_data := some (m.update_button_status c2.player) }

/-- `get_maps` from `map.rs`: the three shipped levels. -/
def get_maps : List MapData :=
  [ -- Level 1
    { tile_map :=
        (Tile.new_wall 0 0 .Wall1 .Right 30) ++
        (Tile.new_wall 0 0 .Wall1 .Down 7) ++
        (Tile.new_wall 6 0 .Wall1 .Right 23) ++
        (Tile.new_wall 6 23 .Wall1 .Down 10) ++
        (Tile.new_wall 16 23 .Wall1 .Right 7) ++
        (Tile.new_wall 16 29 .Wall1 .Up 17) ++
        [Tile.new 13 26 .WinPad],
      player_spawn := (3, 3),
      flavor_text := some "Welcome" },
    -- Level 2
    { tile_map :=
        (Tile.new_wall 15 5 .Wall1 .Right 30) ++
        (Tile.new_wall 14 34 .Wall1 .Up 15) ++
        (Tile.new_wall 0 34 .Wall1 .Left 35) ++
        (Tile.new_wall 0 0 .Wall1 .Down 10) ++
        (Tile.new_wall 9 0 .Wall1 .Right 31) ++
        (Tile.new_wall 9 32 .Wall1 .Right 2) ++
        (Tile.new_wall 14 5 .Wall1 .Up 5) ++
        (Tile.new_wall 14 17 .Wall1 .Up 2) ++
        [Tile.new 12 17 (.Door (some 0) false)] ++
        (Tile.new_wall 11 17 .Wall1 .Up 2) ++
        [Tile.new 10 11 (.Button 0)] ++
        [Tile.new 7 2 .WinPad] ++
        [Tile.new 9 31 (.Door (some 1) false)] ++
        [Tile.new 14 33 (.Button 1)],
      player_spawn := (14, 6),
      flavor_text := some "Buttons? What do they do?" },
    -- Level 3
    { tile_map :=
        (Tile.new_wall 0 0 .Wall1 .Right 40) ++
        (Tile.new_wall 0 0 .Wall1 .Down 6) ++
        (Tile.new_wall 6 0 .Wall1 .Right 40) ++
        (Tile.new_wall 0 39 .Wall1 .Down 6) ++
        (Tile.new_wall 0 28 .Wall1 .Down 3) ++
        (Tile.new_wall 6 28 .Wall1 .Up 3) ++
        [Tile.new 3 28 (.Door (some 0) false)] ++
        [Tile.new 2 24 (.Button 0)] ++
        [Tile.new 4 24 (.Button 0)] ++
        [Tile.new 3 10 .PushBox] ++
        [Tile.new 3 35 .WinPad],
      player_spawn := (3, 3),
      flavor_text := some "You must activate both buttons at once." } ]

/-! Concrete states used to instantiate the theorems below. -/

/-- A map with an already-open linked door and a single uncovered button of
the same id. -/
def doorCexMap : MapData :=
  ⟨[Tile.new 0 0 (.Door (some 0) true), Tile.new 5 5 (.Button 0)], (0, 0), none⟩

/-- A player standing far away from every tile of the small example maps. -/
def farPlayer : Player :=
  ⟨9, 9, 'X'⟩

/-- A player at the origin. -/
def originPlayer : Player :=
  ⟨0, 0, 'X'⟩

/-- Two push boxes stacked on the cell right of the origin, with a wall on
the cell beyond them. -/
def twinBoxMap : MapData :=
  ⟨[Tile.new 0 1 .PushBox, Tile.new 0 1 .PushBox, Tile.new 0 2 .Wall1], (0, 0), none⟩

/-- A map whose spawn cell holds two win pads. -/
def doubleWinMap : MapData :=
  ⟨[Tile.new 0 0 .WinPad, Tile.new 0 0 .WinPad], (0, 0), none⟩

/-- An empty spare level. -/
def spareMapA : MapData :=
  ⟨[], (1, 1), none⟩

/-- A second empty spare level. -/
def spareMapB : MapData :=
  ⟨[], (2, 2), none⟩

/-- A session whose player stands on the two win pads of `doubleWinMap`,
with two further levels available. -/
def doubleWinCtx : GameContext :=
  ⟨originPlayer, some doubleWinMap, [doubleWinMap, spareMapA, spareMapB], 0⟩

/-- The session state of `main.rs` right after construction, before
`load_current_level` has run: no active level. -/
def noLevelCtx : GameContext :=
  ⟨⟨5, 5, 'X'⟩, none, get_maps, 0⟩

/-- A lone push box with empty space beyond it. -/
def loneBoxMap : MapData :=
  ⟨[Tile.new 3 10 .PushBox], (3, 3), none⟩

/-- A player directly left of the lone box of `loneBoxMap`. -/
def pushPlayer : Player :=
  ⟨3, 9, 'X'⟩

/-- Two buttons sharing id 0, one covered by a push box, as in level 3. -/
def twoButtonMap : MapData :=
  ⟨[Tile.new 2 24 (.Button 0), Tile.new 4 24 (.Button 0), Tile.new 4 24 .PushBox],
   (0, 0), none⟩

/-- A wall directly right of the origin. -/
def wallMap : MapData :=
  ⟨[Tile.new 0 1 .Wall1], (0, 0), none⟩

/-- A freshly constructed session over a one-level list. -/
def freshCtx : GameContext :=
  ⟨⟨7, 7, 'X'⟩, none, [doorCexMap], 0⟩

/-- The result of loading `freshCtx`'s level 0. -/
def loadedCtx : GameContext :=
  ⟨⟨0, 0, 'X'⟩, some doorCexMap, [doorCexMap], 0⟩

/-- Whether `t` is a `Button` tile carrying exactly the id `id`. -/
def isButtonWithId (id : Nat) (t : Tile) : Bool :=
  t.tile_type == .Button id

/-- Whether the cell of tile `t` is occupied by the player or by one of the
push boxes in `boxes` — the coverage test of the button loop. -/
def coveredBy (p : Player) (boxes : List Tile) (t : Tile) : Bool :=
  (p.y == t.y && p.x == t.x) || boxes.any fun pbox => pbox.y == t.y && pbox.x == t.x

/-- A player standing on the upper button of `twoButtonMap`. -/
def coverPlayer : Player :=
  ⟨2, 24, 'X'⟩

/-! ## Theorems -/

/-- Reduction of `load_current_level` when the level index is in range. -/
theorem load_current_level_eq (c : GameContext) (mp : MapData)
    (h : c.map_list[c.level]? = some mp) :
    c.load_current_level =
      some { c with
              map_data := some mp,
              player := { c.player with
                            y := mp.player_spawn.1,
                            x := mp.player_spawn.2 } } := by
  unfold GameContext.load_current_level
  rw [h]

/-- Claim C1, counterexample: an already-open `Door(Some 0)` whose id 0 is
currently unsatisfied (its only button is uncovered) is left open by
`update_button_status`; the open flag does not track satisfaction, so the
door does not re-close. -/
theorem door_stays_open_when_unsatisfied_cex :
    doorCexMap.ids_satiated farPlayer 0 = some false ∧
    (doorCexMap.update_button_status farPlayer).tile_map =
      [Tile.new 0 0 (.Door (some 0) true), Tile.new 5 5 (.Button 0)] := by
  constructor <;> rfl

/-- Claim C1, amended: after `update_button_status`, a `Door(Some id, b)`
tile's open flag equals `b || satisfaction(id)` — it is opened when the id is
satisfied, but an already-open door stays open even when the id is
unsatisfied (the flag latches open; it is not recomputed from scratch). -/
theorem update_button_status_door_flag (m : MapData) (p : Player) (i : Nat)
    (t : Tile) (id : Nat) (b : Bool)
    (ht : m.tile_map[i]? = some t) (hdoor : t.tile_type = .Door (some id) b) :
    (m.update_button_status p).tile_map[i]? =
      some { t with
              tile_type := .Door (some id)
                (b || ((m.ids_satiated p id).getD false)) } := by
  rcases t with ⟨ty, tx, tt⟩
  simp only at hdoor
  subst hdoor
  simp only [MapData.update_button_status, List.getElem?_map, ht, Option.map_some']
  by_cases hs : (m.ids_satiated p id).getD false = true
  · simp [doorStep, hs]
  · simp only [Bool.not_eq_true] at hs
    simp [doorStep, hs]

/-- Witness for the amended C1 theorem at a concrete open door. -/
theorem update_button_status_door_flag_witness :
    (doorCexMap.update_button_status farPlayer).tile_map[0]? =
      some { Tile.new 0 0 (.Door (some 0) true) with
              tile_type := .Door (some 0)
                (true || ((doorCexMap.ids_satiated farPlayer 0).getD false)) } :=
  update_button_status_door_flag doorCexMap farPlayer 0
    (Tile.new 0 0 (.Door (some 0) true)) 0 true rfl rfl

/-- Claim C10: `update_button_status` never changes a door's open flag from
`true` to `false` — every door that is open before the call is still open
(and still in place) after it. -/
theorem update_button_status_never_closes_door (m : MapData) (p : Player)
    (i : Nat) (t : Tile) (o : Option Nat)
    (ht : m.tile_map[i]? = some t) (hdoor : t.tile_type = .Door o true) :
    ∃ t2, (m.update_button_status p).tile_map[i]? = some t2 ∧
      t2.tile_type = .Door o true ∧ t2.y = t.y ∧ t2.x = t.x := by
  rcases t with ⟨ty, tx, tt⟩
  simp only at hdoor
  subst hdoor
  simp only [MapData.update_button_status, List.getElem?_map, ht, Option.map_some']
  cases o with
  | none => exact ⟨⟨ty, tx, .Door none true⟩, rfl, rfl, rfl, rfl⟩
  | some id =>
    by_cases hs : (m.ids_satiated p id).getD false = true
    · refine ⟨⟨ty, tx, .Door (some id) true⟩, ?_, rfl, rfl, rfl⟩
      simp [doorStep, hs]
    · simp only [Bool.not_eq_true] at hs
      refine ⟨⟨ty, tx, .Door (some id) true⟩, ?_, rfl, rfl, rfl⟩
      simp [doorStep, hs]

/-- Witness for the C10 theorem at a concrete open door. -/
theorem update_button_status_never_closes_door_witness :
    ∃ t2, (doorCexMap.update_button_status farPlayer).tile_map[0]? = some t2 ∧
      t2.tile_type = .Door (some 0) true ∧
      t2.y = (Tile.new 0 0 (.Door (some 0) true)).y ∧
      t2.x = (Tile.new 0 0 (.Door (some 0) true)).x :=
  update_button_status_never_closes_door doorCexMap farPlayer 0
    (Tile.new 0 0 (.Door (some 0) true)) (some 0) rfl rfl

/-- Claim C9: `load_current_level` is idempotent — if loading succeeds and
produces session state `c2`, loading again from `c2` succeeds and produces
`c2` itself (same cloned tile state, same respawned player). -/
theorem load_current_level_idempotent (c c2 : GameContext)
    (h : c.load_current_level = some c2) :
    c2.load_current_level = some c2 := by
  cases hm : c.map_list[c.level]? with
  | none =>
    unfold GameContext.load_current_level at h
    rw [hm] at h
    cases h
  | some mp =>
    have h2 : c2 = { c with
                      map_data := some mp,
                      player := { c.player with
                                    y := mp.player_spawn.1,
                                    x := mp.player_spawn.2 } } :=
      Option.some.inj (h.symm.trans (load_current_level_eq c mp hm))
    subst h2
    exact load_current_level_eq _ mp hm

/-- Witness for the C9 theorem at a concrete one-level session. -/
theorem load_current_level_idempotent_witness :
    loadedCtx.load_current_level = some loadedCtx :=
  load_current_level_idempotent freshCtx loadedCtx rfl

/-- Claim C4 (the code panics instead): with no active level
(`map_data == None`, as in `main.rs` before the first load), both
`player_movement` (in any direction) and `collect_events` hit
`Option::unwrap` on `None` — modelled as `none` — rather than acting as a
no-op. -/
theorem no_level_ops_panic :
    (∀ d : Direction, noLevelCtx.player_movement d = none) ∧
    noLevelCtx.collect_events = none :=
  ⟨fun _ => rfl, rfl⟩

/-- A pushable tile is never solid. -/
theorem is_solid_eq_false_of_is_pushable (t : TileType)
    (h : t.is_pushable = true) : t.is_solid = false := by
  cases t <;> simp_all [TileType.is_pushable, TileType.is_solid]

/-- When the beyond cell is obstructed, the scan loop never moves a tile:
moves happen only in the `tiles_past_tile == 0` branch. -/
theorem scanTiles_fst_of_ne_zero (d : Direction) (n : Nat) (hn : n ≠ 0) :
    ∀ (idxs : List Nat) (tiles : List Tile),
      (scanTiles d n idxs tiles).1 = tiles := by
  intro idxs
  induction idxs with
  | nil => intro tiles; rfl
  | cons i rest ih =>
    intro tiles
    rw [scanTiles]
    cases h : tiles[i]? with
    | none => exact ih tiles
    | some t =>
      by_cases hs : t.tile_type.is_solid = true
      · simp [hs]
      · simp only [Bool.not_eq_true] at hs
        by_cases hp : t.tile_type.is_pushable = true
        · simp [hs, hp, hn]
        · simp only [Bool.not_eq_true] at hp
          simp only [hs, hp, Bool.false_eq_true, if_false]
          exact ih tiles

/-- When the beyond cell is obstructed and some scanned index holds a solid
or pushable tile, the scan loop reports the move as blocked. -/
theorem scanTiles_snd_of_obstructed (d : Direction) (n : Nat) (hn : n ≠ 0) :
    ∀ (idxs : List Nat) (tiles : List Tile),
      (∃ i ∈ idxs, ∃ t, tiles[i]? = some t ∧
        (t.tile_type.is_solid = true ∨ t.tile_type.is_pushable = true)) →
      (scanTiles d n idxs tiles).2 = false := by
  intro idxs
  induction idxs with
  | nil => rintro tiles ⟨i, hi, -⟩; cases hi
  | cons i rest ih =>
    rintro tiles ⟨j, hj, t0, ht0, hsp⟩
    rw [scanTiles]
    cases h : tiles[i]? with
    | none =>
      refine ih tiles ⟨j, ?_, t0, ht0, hsp⟩
      rcases List.mem_cons.mp hj with rfl | hj2
      · rw [h] at ht0; cases ht0
      · exact hj2
    | some t =>
      by_cases hs : t.tile_type.is_solid = true
      · simp [hs]
      · simp only [Bool.not_eq_true] at hs
        by_cases hp : t.tile_type.is_pushable = true
        · simp [hs, hp, hn]
        · simp only [Bool.not_eq_true] at hp
          simp only [hs, hp, Bool.false_eq_true, if_false]
          refine ih tiles ⟨j, ?_, t0, ht0, hsp⟩
          rcases List.mem_cons.mp hj with rfl | hj2
          · rw [h] at ht0
            cases ht0
            simp [hs, hp] at hsp
          · exact hj2

/-- If some scanned index holds a solid tile, the scan loop reports the move
as blocked (the Rust early `return`), for any obstruction count. -/
theorem scanTiles_snd_of_solid (d : Direction) (n : Nat) :
    ∀ (idxs : List Nat) (tiles : List Tile),
      (∃ i ∈ idxs, ∃ t, tiles[i]? = some t ∧ t.tile_type.is_solid = true) →
      (scanTiles d n idxs tiles).2 = false := by
  intro idxs
  induction idxs with
  | nil => rintro tiles ⟨i, hi, -⟩; cases hi
  | cons i rest ih =>
    rintro tiles ⟨j, hj, t0, ht0, hsolid⟩
    rw [scanTiles]
    cases h : tiles[i]? with
    | none =>
      refine ih tiles ⟨j, ?_, t0, ht0, hsolid⟩
      rcases List.mem_cons.mp hj with rfl | hj2
      · rw [h] at ht0; cases ht0
      · exact hj2
    | some t =>
      by_cases hs : t.tile_type.is_solid = true
      · simp [hs]
      · simp only [Bool.not_eq_true] at hs
        have hji : j ≠ i := by
          rintro rfl
          rw [h] at ht0
          cases ht0
          rw [hsolid] at hs
          cases hs
        by_cases hp : t.tile_type.is_pushable = true
        · by_cases h0 : n = 0
          · subst h0
            simp only [hs, hp, Bool.false_eq_true, if_false, if_true,
              beq_self_eq_true, if_pos]
            refine ih _ ⟨j, ?_, t0, ?_, hsolid⟩
            · rcases List.mem_cons.mp hj with rfl | hj2
              · exact absurd rfl hji
              · exact hj2
            · rw [List.getElem?_set_ne (fun h2 => hji h2.symm)]
              exact ht0
          · simp [hs, hp, h0]
        · simp only [Bool.not_eq_true] at hp
          simp only [hs, hp, Bool.false_eq_true, if_false]
          refine ih tiles ⟨j, ?_, t0, ht0, hsolid⟩
          rcases List.mem_cons.mp hj with rfl | hj2
          · exact absurd rfl hji
          · exact hj2

/-- If every scanned index holds a tile that is neither solid nor pushable,
the scan loop changes nothing and allows the move. -/
theorem scanTiles_of_skip (d : Direction) (n : Nat) :
    ∀ (idxs : List Nat) (tiles : List Tile),
      (∀ i ∈ idxs, ∀ t, tiles[i]? = some t →
        t.tile_type.is_solid = false ∧ t.tile_type.is_pushable = false) →
      scanTiles d n idxs tiles = (tiles, true) := by
  intro idxs
  induction idxs with
  | nil => intro tiles _; rfl
  | cons i rest ih =>
    intro tiles hall
    rw [scanTiles]
    cases h : tiles[i]? with
    | none => exact ih tiles fun i2 hi2 => hall i2 (List.mem_cons_of_mem _ hi2)
    | some t =>
      obtain ⟨hs, hp⟩ := hall i (List.mem_cons_self _ _) t h
      simp only [hs, hp, Bool.false_eq_true, if_false]
      exact ih tiles fun i2 hi2 => hall i2 (List.mem_cons_of_mem _ hi2)

/-- With an unobstructed beyond cell, a scan whose indices contain exactly
one pushable tile (at index `j`) and otherwise only tiles that are neither
solid nor pushable moves that one tile and allows the player move. -/
theorem scanTiles_single_push (d : Direction) :
    ∀ (idxs : List Nat) (tiles : List Tile) (j : Nat) (hj : j < tiles.length),
      idxs.Nodup → j ∈ idxs →
      (∀ t, tiles[j]? = some t → t.tile_type.is_pushable = true) →
      (∀ i ∈ idxs, i ≠ j → ∀ t, tiles[i]? = some t →
        t.tile_type.is_solid = false ∧ t.tile_type.is_pushable = false) →
      scanTiles d 0 idxs tiles = (tiles.set j ((tiles[j]).move_tile d), true) := by
  intro idxs
  induction idxs with
  | nil => rintro tiles j hj - hmem -; cases hmem
  | cons i rest ih =>
    intro tiles j hj hnodup hmem hpush hrest
    obtain ⟨hnotin, hnodup2⟩ := List.nodup_cons.mp hnodup
    rw [scanTiles]
    by_cases hij : i = j
    · subst hij
      rw [List.getElem?_eq_getElem hj]
      have hp := hpush _ (List.getElem?_eq_getElem hj)
      have hs := is_solid_eq_false_of_is_pushable _ hp
      simp only [hs, hp, Bool.false_eq_true, if_false, if_true,
        beq_self_eq_true, if_pos]
      refine scanTiles_of_skip d 0 rest _ ?_
      intro i2 hi2 t ht
      have hi2i : i2 ≠ i := fun h2 => hnotin (h2 ▸ hi2)
      rw [List.getElem?_set_ne (fun h2 => hi2i h2.symm)] at ht
      exact hrest i2 (List.mem_cons_of_mem _ hi2) hi2i t ht
    · have hjrest : j ∈ rest := by
        rcases List.mem_cons.mp hmem with rfl | h2
        · exact absurd rfl hij
        · exact h2
      cases h : tiles[i]? with
      | none =>
        exact ih tiles j hj hnodup2 hjrest hpush
          fun i2 hi2 => hrest i2 (List.mem_cons_of_mem _ hi2)
      | some t =>
        obtain ⟨hs, hp⟩ := hrest i (List.mem_cons_self _ _) hij t h
        simp only [hs, hp, Bool.false_eq_true, if_false]
        exact ih tiles j hj hnodup2 hjrest hpush
          fun i2 hi2 => hrest i2 (List.mem_cons_of_mem _ hi2)

/-- An index of a tile of `m` at `(y, x)` belongs to `tile_indices_at`. -/
theorem mem_tile_indices_at (m : MapData) (y x : Int) (i : Nat) (t : Tile)
    (ht : m.tile_map[i]? = some t) (hy : t.y = y) (hx : t.x = x) :
    i ∈ m.tile_indices_at y x := by
  obtain ⟨hlen, -⟩ := List.getElem?_eq_some.mp ht
  refine List.mem_filter.mpr ⟨List.mem_range.mpr hlen, ?_⟩
  rw [ht]
  simp [hy, hx]

/-- Conversely, a member of `tile_indices_at` indexes a tile at `(y, x)`. -/
theorem of_mem_tile_indices_at (m : MapData) (y x : Int) (i : Nat)
    (hi : i ∈ m.tile_indices_at y x) :
    ∃ t, m.tile_map[i]? = some t ∧ t.y = y ∧ t.x = x := by
  obtain ⟨-, hpred⟩ := List.mem_filter.mp hi
  cases h : m.tile_map[i]? with
  | none => rw [h] at hpred; cases hpred
  | some t =>
    rw [h] at hpred
    simp only [Bool.and_eq_true, beq_iff_eq] at hpred
    exact ⟨t, rfl, hpred.1, hpred.2⟩

/-- The scanned index list of `player_move` has no duplicates. -/
theorem tile_indices_at_nodup (m : MapData) (y x : Int) :
    (m.tile_indices_at y x).Nodup :=
  (List.nodup_range _).filter _

/-- Claim C3, counterexample: with two push boxes stacked on the target cell
and a wall beyond, the scan stops at the first blocked push (`break`), and
the later pushable tile at the same cell is not moved either — the whole
state is unchanged, refuting that a later pushable tile at that cell can
still be moved by the same call. -/
theorem blocked_push_scan_cex :
    twinBoxMap.num_solid_or_pushable_tiles_at 0 2 ≠ 0 ∧
    twinBoxMap.player_move originPlayer .Right = (twinBoxMap, originPlayer) := by
  constructor
  · decide
  · rfl

/-- Claim C3, amended: when a pushable tile at the target cell is reached
with a non-zero obstruction count at the cell beyond, the move is marked
blocked and the scan loop `break`s at that tile; since the obstruction count
is computed once per call for the single beyond cell, no pushable tile at
the target cell — earlier or later in scan order — moves in such a call: the
whole tile map is left unchanged. -/
theorem blocked_push_map_unchanged (m : MapData) (p : Player) (d : Direction)
    (hn : m.num_solid_or_pushable_tiles_at
        (p.y + d.get_vec2_move.1 + d.get_vec2_move.1)
        (p.x + d.get_vec2_move.2 + d.get_vec2_move.2) ≠ 0) :
    (m.player_move p d).1 = m := by
  simp only [MapData.player_move]
  rw [scanTiles_fst_of_ne_zero d _ hn]

/-- Witness for the amended C3 theorem on the stacked-boxes map. -/
theorem blocked_push_map_unchanged_witness :
    (twinBoxMap.player_move originPlayer .Right).1 = twinBoxMap :=
  blocked_push_map_unchanged twinBoxMap originPlayer .Right (by decide)

/-- Claim C7: when the target cell holds a push box and the cell beyond
holds at least one solid or pushable tile, `player_move` changes nothing:
the player and every tile (in particular every box) stay where they are, so
chains of two or more boxes can never be pushed. -/
theorem push_into_obstruction_unmoved (m : MapData) (p : Player) (d : Direction)
    (hbox : ∃ t ∈ m.immut_tiles_at (p.y + d.get_vec2_move.1)
        (p.x + d.get_vec2_move.2), t.tile_type.is_pushable = true)
    (hn : m.num_solid_or_pushable_tiles_at
        (p.y + d.get_vec2_move.1 + d.get_vec2_move.1)
        (p.x + d.get_vec2_move.2 + d.get_vec2_move.2) ≠ 0) :
    m.player_move p d = (m, p) := by
  obtain ⟨t, htmem, hp⟩ := hbox
  obtain ⟨htm, hpos⟩ := List.mem_filter.mp htmem
  simp only [Bool.and_eq_true, beq_iff_eq] at hpos
  obtain ⟨i, hi⟩ := List.mem_iff_getElem?.mp htm
  have hidx := mem_tile_indices_at m _ _ i t hi hpos.1 hpos.2
  have hsnd := scanTiles_snd_of_obstructed d _ hn
    (m.tile_indices_at (p.y + d.get_vec2_move.1) (p.x + d.get_vec2_move.2))
    m.tile_map ⟨i, hidx, t, hi, Or.inr hp⟩
  simp only [MapData.player_move]
  rw [scanTiles_fst_of_ne_zero d _ hn, hsnd]
  rfl

/-- Witness for the C7 theorem on the stacked-boxes map. -/
theorem push_into_obstruction_unmoved_witness :
    twinBoxMap.player_move originPlayer .Right = (twinBoxMap, originPlayer) :=
  push_into_obstruction_unmoved twinBoxMap originPlayer .Right
    ⟨Tile.new 0 1 .PushBox, by decide, by decide⟩ (by decide)

/-- Claim C8: when the target cell holds a solid tile (a wall, or a door
with open flag `false`), `player_move` never changes the player's position. -/
theorem solid_at_target_blocks_player (m : MapData) (p : Player) (d : Direction)
    (hsolid : ∃ t ∈ m.immut_tiles_at (p.y + d.get_vec2_move.1)
        (p.x + d.get_vec2_move.2), t.tile_type.is_solid = true) :
    (m.player_move p d).2 = p := by
  obtain ⟨t, htmem, hs⟩ := hsolid
  obtain ⟨htm, hpos⟩ := List.mem_filter.mp htmem
  simp only [Bool.and_eq_true, beq_iff_eq] at hpos
  obtain ⟨i, hi⟩ := List.mem_iff_getElem?.mp htm
  have hidx := mem_tile_indices_at m _ _ i t hi hpos.1 hpos.2
  have hsnd := scanTiles_snd_of_solid d
    (m.num_solid_or_pushable_tiles_at
      (p.y + d.get_vec2_move.1 + d.get_vec2_move.1)
      (p.x + d.get_vec2_move.2 + d.get_vec2_move.2))
    (m.tile_indices_at (p.y + d.get_vec2_move.1) (p.x + d.get_vec2_move.2))
    m.tile_map ⟨i, hidx, t, hi, hs⟩
  simp only [MapData.player_move]
  rw [hsnd]
  rfl

/-- Witness for the C8 theorem on the wall map. -/
theorem solid_at_target_blocks_player_witness :
    (wallMap.player_move originPlayer .Right).2 = originPlayer :=
  solid_at_target_blocks_player wallMap originPlayer .Right
    ⟨Tile.new 0 1 .Wall1, by decide, by decide⟩

/-- `buttonStep` on a button tile, written through the coverage test. -/
theorem buttonStep_eq (p : Player) (boxes : List Tile)
    (acc : Nat → Option Bool) (yb xb : Int) (id2 : Nat) :
    buttonStep p boxes acc ⟨yb, xb, .Button id2⟩ =
      if coveredBy p boxes ⟨yb, xb, .Button id2⟩ then
        (if (acc id2).isSome then acc else insertId acc id2 true)
      else
        insertId (if (acc id2).isSome then acc else insertId acc id2 true)
          id2 false := by
  have hcond : ((p.y != yb || p.x != xb) &&
      !(boxes.any fun pbox => pbox.y == yb && pbox.x == xb)) =
      !(coveredBy p boxes ⟨yb, xb, .Button id2⟩) := by
    simp only [coveredBy, bne, Bool.not_or, Bool.not_and]
  simp only [buttonStep]
  rw [hcond]
  cases hcov : coveredBy p boxes ⟨yb, xb, .Button id2⟩ <;> simp [hcov]

/-- `buttonStep` leaves entries of other ids untouched. -/
theorem buttonStep_apply_ne (p : Player) (boxes : List Tile)
    (acc : Nat → Option Bool) (b : Tile) (id : Nat)
    (hb : isButtonWithId id b = false) :
    buttonStep p boxes acc b id = acc id := by
  rcases b with ⟨yb, xb, tb⟩
  cases tb with
  | Button id2 =>
    have hid : id ≠ id2 := by
      intro h
      subst h
      simp [isButtonWithId] at hb
    rw [buttonStep_eq]
    by_cases hcov : coveredBy p boxes ⟨yb, xb, .Button id2⟩ = true <;>
      by_cases hsome : (acc id2).isSome = true <;>
      simp [hcov, hsome, insertId, hid]
  | Empty => rfl
  | Wall1 => rfl
  | PushBox => rfl
  | Door idOpt isOpen => rfl
  | WinPad => rfl

/-- Closed form of the button loop: folding `buttonStep` over a tile list,
the entry of `id` is `some false` as soon as one uncovered `Button id` tile
occurs, else `some true` (or the preserved previous entry) when a `Button id`
tile occurs, else untouched. -/
theorem foldl_buttonStep_apply (p : Player) (boxes : List Tile) :
    ∀ (bs : List Tile) (acc : Nat → Option Bool) (id : Nat),
      (bs.foldl (buttonStep p boxes) acc) id =
        if bs.any (fun t => isButtonWithId id t && !(coveredBy p boxes t)) then
          some false
        else if bs.any (isButtonWithId id) then
          (if (acc id).isSome then acc id else some true)
        else acc id := by
  intro bs
  induction bs with
  | nil => intro acc id; simp
  | cons b rest ih =>
    intro acc id
    rw [List.foldl_cons, List.any_cons, List.any_cons, ih]
    by_cases hb : isButtonWithId id b = true
    · have hbty : b.tile_type = .Button id := by
        have := hb
        simp only [isButtonWithId, beq_iff_eq] at this
        exact this
      rcases b with ⟨yb, xb, tb⟩
      simp only at hbty
      subst hbty
      by_cases hcov : coveredBy p boxes ⟨yb, xb, .Button id⟩ = true
      · have hstep : buttonStep p boxes acc ⟨yb, xb, .Button id⟩ id =
            if (acc id).isSome then acc id else some true := by
          rw [buttonStep_eq]
          by_cases hsome : (acc id).isSome = true <;>
            simp [hcov, hsome, insertId]
        have hstepSome : (buttonStep p boxes acc ⟨yb, xb, .Button id⟩ id).isSome = true := by
          rw [hstep]
          by_cases hsome : (acc id).isSome = true <;> simp [hsome]
        simp only [hb, hcov, Bool.not_true, Bool.and_false, Bool.false_or,
          Bool.true_or, if_true]
        by_cases hunc : (rest.any fun t =>
            isButtonWithId id t && !(coveredBy p boxes t)) = true
        · simp [hunc]
        · simp only [Bool.not_eq_true] at hunc
          simp only [hunc, Bool.false_eq_true, if_false]
          by_cases hbtn : rest.any (isButtonWithId id) = true
          · simp [hbtn, hstepSome, hstep]
            intro h
            by_cases hsome : (acc id).isSome = true
            · rw [if_pos hsome] at h
              rw [h] at hsome
              cases hsome
            · rw [if_neg hsome] at h
              cases h
          · simp only [Bool.not_eq_true] at hbtn
            simp [hbtn, hstep]
      · have hstep : buttonStep p boxes acc ⟨yb, xb, .Button id⟩ id = some false := by
          rw [buttonStep_eq]
          simp only [hcov, Bool.false_eq_true, if_false]
          simp [insertId]
        simp only [Bool.not_eq_true] at hcov
        simp only [hb, hcov, Bool.not_false, Bool.and_true, Bool.true_and,
          Bool.true_or, if_true]
        by_cases hunc : (rest.any fun t =>
            isButtonWithId id t && !(coveredBy p boxes t)) = true
        · simp [hunc]
        · simp only [Bool.not_eq_true] at hunc
          simp only [hunc, Bool.false_eq_true, if_false]
          by_cases hbtn : rest.any (isButtonWithId id) = true
          · simp [hbtn, hstep]
          · simp only [Bool.not_eq_true] at hbtn
            simp [hbtn, hstep]
    · simp only [Bool.not_eq_true] at hb
      rw [buttonStep_apply_ne p boxes acc b id hb]
      simp [hb]

/-- Claim C5: for a button id with at least one `Button(id)` tile on the
grid, the recomputed satisfaction of `id` is `some true` iff every
`Button(id)` tile's position is occupied by the player or by at least one
`PushBox` tile; one uncovered occurrence unsatisfies the id. -/
theorem ids_satiated_true_iff_all_covered (m : MapData) (p : Player) (id : Nat)
    (hex : ∃ t ∈ m.tile_map, t.tile_type = .Button id) :
    (m.ids_satiated p id = some true ↔
      ∀ t ∈ m.tile_map, t.tile_type = .Button id →
        ((p.y = t.y ∧ p.x = t.x) ∨
          ∃ pb ∈ m.tile_map, pb.tile_type = .PushBox ∧
            pb.y = t.y ∧ pb.x = t.x)) := by
  obtain ⟨t0, ht0mem, ht0ty⟩ := hex
  simp only [MapData.ids_satiated]
  rw [foldl_buttonStep_apply]
  have hbtnmem : ∀ t : Tile, t.tile_type = .Button id →
      t ∈ m.tile_map → t ∈ m.tile_map.filter fun t2 =>
        match t2.tile_type with
        | .Button _ => true
        | _ => false := by
    intro t hty htm
    refine List.mem_filter.mpr ⟨htm, ?_⟩
    rw [hty]
  have hcov_iff : ∀ t : Tile, (coveredBy p
      (m.tile_map.filter fun t2 => t2.tile_type == .PushBox) t = true ↔
      ((p.y = t.y ∧ p.x = t.x) ∨
        ∃ pb ∈ m.tile_map, pb.tile_type = .PushBox ∧
          pb.y = t.y ∧ pb.x = t.x)) := by
    intro t
    simp only [coveredBy, Bool.or_eq_true, Bool.and_eq_true, beq_iff_eq,
      List.any_eq_true, List.mem_filter]
    constructor
    · rintro (⟨h1, h2⟩ | ⟨pb, ⟨hpbm, hpbty⟩, hpy, hpx⟩)
      · exact Or.inl ⟨h1, h2⟩
      · exact Or.inr ⟨pb, hpbm, hpbty, hpy, hpx⟩
    · rintro (⟨h1, h2⟩ | ⟨pb, hpbm, hpbty, hpy, hpx⟩)
      · exact Or.inl ⟨h1, h2⟩
      · exact Or.inr ⟨pb, ⟨hpbm, by rw [hpbty]⟩, hpy, hpx⟩
  have hany : ((m.tile_map.filter fun t2 =>
      match t2.tile_type with
      | .Button _ => true
      | _ => false).any (isButtonWithId id)) = true := by
    refine List.any_eq_true.mpr ⟨t0, hbtnmem t0 ht0ty ht0mem, ?_⟩
    simp [isButtonWithId, ht0ty]
  by_cases hunc : ((m.tile_map.filter fun t2 =>
      match t2.tile_type with
      | .Button _ => true
      | _ => false).any fun t =>
        isButtonWithId id t &&
          !(coveredBy p (m.tile_map.filter fun t2 => t2.tile_type == .PushBox) t)) = true
  · obtain ⟨tw, htwmem, htwpred⟩ := List.any_eq_true.mp hunc
    simp only [Bool.and_eq_true, Bool.not_eq_true', isButtonWithId,
      beq_iff_eq] at htwpred
    simp only [hunc, if_true]
    constructor
    · intro h
      cases h
    · intro hall
      have := (hcov_iff tw).mpr
        (hall tw (List.mem_filter.mp htwmem).1 htwpred.1)
      rw [htwpred.2] at this
      cases this
  · simp only [Bool.not_eq_true] at hunc
    simp only [hunc, Bool.false_eq_true, if_false, hany, if_true,
      Option.isSome_none, Bool.false_eq_true, if_false]
    constructor
    · intro _ t htm hty
      have htfil := hbtnmem t hty htm
      have hpred : ¬ (isButtonWithId id t &&
          !(coveredBy p (m.tile_map.filter fun t2 => t2.tile_type == .PushBox) t)) = true :=
        List.any_eq_false.mp hunc t htfil
      have hbtn : isButtonWithId id t = true := by simp [isButtonWithId, hty]
      simp only [Bool.and_eq_true, Bool.not_eq_true', not_and, hbtn,
        forall_const, Bool.not_eq_false] at hpred
      exact (hcov_iff t).mp hpred
    · intro _
      trivial

/-- Witness for the C5 theorem: two buttons of id 0, one under the player
and one under a push box, make id 0 satisfied. -/
theorem ids_satiated_true_iff_all_covered_witness :
    (twoButtonMap.ids_satiated coverPlayer 0 = some true ↔
      ∀ t ∈ twoButtonMap.tile_map, t.tile_type = .Button 0 →
        ((coverPlayer.y = t.y ∧ coverPlayer.x = t.x) ∨
          ∃ pb ∈ twoButtonMap.tile_map, pb.tile_type = .PushBox ∧
            pb.y = t.y ∧ pb.x = t.x)) :=
  ids_satiated_true_iff_all_covered twoButtonMap coverPlayer 0
    ⟨Tile.new 2 24 (.Button 0), by decide, rfl⟩

/-- Looking up the index right after `pre` in `pre ++ b :: post` yields `b`. -/
theorem getElem?_append_cons_self {α : Type} (pre : List α) (b : α) (post : List α) :
    (pre ++ b :: post)[pre.length]? = some b := by
  induction pre with
  | nil => simp
  | cons hd tl ih => simpa using ih

/-- Setting the index right after `pre` in `pre ++ b :: post` replaces `b`. -/
theorem set_append_cons_self {α : Type} (pre : List α) (b v : α) (post : List α) :
    (pre ++ b :: post).set pre.length v = pre ++ v :: post := by
  induction pre with
  | nil => rfl
  | cons hd tl ih => simp [ih]

/-- A successful lookup in `pre ++ b :: post` at an index other than
`pre.length` lands in `pre ++ post`. -/
theorem mem_append_of_getElem?_ne {α : Type} (pre : List α) (b : α) (post : List α) :
    ∀ (i : Nat), i ≠ pre.length → ∀ t, (pre ++ b :: post)[i]? = some t →
      t ∈ pre ++ post := by
  induction pre with
  | nil =>
    intro i hi t ht
    cases i with
    | zero => exact absurd rfl hi
    | succ k =>
      simp only [List.nil_append, List.getElem?_cons_succ] at ht
      simpa using List.getElem?_mem ht
  | cons hd tl ih =>
    intro i hi t ht
    cases i with
    | zero =>
      simp only [List.cons_append, List.getElem?_cons_zero,
        Option.some.injEq] at ht
      rw [List.cons_append]
      exact ht ▸ List.mem_cons_self _ _
    | succ k =>
      simp only [List.cons_append, List.getElem?_cons_succ] at ht
      have hk : k ≠ tl.length := by
        intro h
        exact hi (by simp [h])
      rw [List.cons_append]
      exact List.mem_cons_of_mem _ (ih k hk t ht)

/-- Claim C6: with exactly one `PushBox` (and no solid tile) at the target
cell and an unobstructed beyond cell, one `player_move` advances the box by
the unit vector into the beyond cell and the player into the box's former
cell. -/
theorem push_lone_box_moves_box_and_player
    (m : MapData) (p : Player) (d : Direction) (pre post : List Tile) (box : Tile)
    (hsplit : m.tile_map = pre ++ box :: post)
    (hbox : box.tile_type = .PushBox)
    (hby : box.y = p.y + d.get_vec2_move.1)
    (hbx : box.x = p.x + d.get_vec2_move.2)
    (hother : ∀ t ∈ pre ++ post,
        t.y = p.y + d.get_vec2_move.1 → t.x = p.x + d.get_vec2_move.2 →
        t.tile_type.is_solid = false ∧ t.tile_type.is_pushable = false)
    (hbeyond : m.num_solid_or_pushable_tiles_at
        (p.y + d.get_vec2_move.1 + d.get_vec2_move.1)
        (p.x + d.get_vec2_move.2 + d.get_vec2_move.2) = 0) :
    m.player_move p d =
      ({ m with tile_map := pre ++ box.move_tile d :: post }, p.move_pos d) := by
  have hjlen : pre.length < m.tile_map.length := by
    rw [hsplit, List.length_append, List.length_cons]
    omega
  have hget : m.tile_map[pre.length]? = some box := by
    rw [hsplit]
    exact getElem?_append_cons_self pre box post
  have hgetel : m.tile_map[pre.length] = box := by
    have h2 := List.getElem?_eq_getElem hjlen
    rw [hget] at h2
    exact (Option.some.inj h2).symm
  have hpush : ∀ t, m.tile_map[pre.length]? = some t →
      t.tile_type.is_pushable = true := by
    intro t ht
    rw [hget] at ht
    injection ht with h2
    subst h2
    rw [hbox]
    rfl
  have hrest : ∀ i ∈ m.tile_indices_at (p.y + d.get_vec2_move.1)
      (p.x + d.get_vec2_move.2), i ≠ pre.length → ∀ t,
      m.tile_map[i]? = some t →
      t.tile_type.is_solid = false ∧ t.tile_type.is_pushable = false := by
    intro i hi hij t ht
    obtain ⟨t2, ht2, hty, htx⟩ := of_mem_tile_indices_at m _ _ i hi
    rw [ht] at ht2
    injection ht2 with h2
    subst h2
    refine hother t ?_ hty htx
    rw [hsplit] at ht
    exact mem_append_of_getElem?_ne pre box post i hij t ht
  have hscan := scanTiles_single_push d
    (m.tile_indices_at (p.y + d.get_vec2_move.1) (p.x + d.get_vec2_move.2))
    m.tile_map pre.length hjlen
    (tile_indices_at_nodup m _ _)
    (mem_tile_indices_at m _ _ pre.length box hget hby hbx)
    hpush hrest
  simp only [MapData.player_move]
  rw [hbeyond, hscan, hgetel]
  rw [hsplit, set_append_cons_self]
  rfl

/-- Witness for the C6 theorem: the lone box at `(3,10)` pushed right moves
to `(3,11)` while the player moves to `(3,10)`. -/
theorem push_lone_box_moves_box_and_player_witness :
    loneBoxMap.player_move pushPlayer .Right =
      ({ loneBoxMap with
          tile_map := [] ++ (Tile.new 3 10 .PushBox).move_tile .Right :: [] },
       pushPlayer.move_pos .Right) :=
  push_lone_box_moves_box_and_player loneBoxMap pushPlayer .Right [] []
    (Tile.new 3 10 .PushBox) rfl rfl (by decide) (by decide)
    (by intro t ht; cases ht) (by decide)

/-- `increment_level` with the next index in range: it succeeds, bumps the
level by one, keeps the level list, and activates a level. -/
theorem increment_level_eq (c : GameContext)
    (h : c.level + 1 < c.map_list.length) :
    ∃ c2, c.increment_level = some c2 ∧ c2.level = c.level + 1 ∧
      c2.map_list = c.map_list ∧ c2.map_data.isSome = true := by
  obtain ⟨mp, hmp⟩ : ∃ mp, c.map_list[c.level + 1]? = some mp :=
    ⟨_, List.getElem?_eq_getElem h⟩
  refine ⟨{ player := { c.player with
                          y := mp.player_spawn.1,
                          x := mp.player_spawn.2 },
            map_data := some mp,
            map_list := c.map_list,
            level := c.level + 1 }, ?_, rfl, rfl, rfl⟩
  unfold GameContext.increment_level
  exact load_current_level_eq { c with level := c.level + 1 } mp hmp

/-- The event loop of `update_all` increments the level once per `Win`
event, provided every intermediate level index is in range. -/
theorem processEvents_level :
    ∀ (evs : List Event) (c : GameContext),
      (∀ j, 0 < j → j ≤ evs.count Event.Win →
        c.level + j < c.map_list.length) →
      ∃ c2, processEvents evs c = some c2 ∧
        c2.level = c.level + evs.count Event.Win ∧
        c2.map_list = c.map_list ∧
        (c2.map_data.isSome = true ∨ c2 = c) := by
  intro evs
  induction evs with
  | nil => intro c _; exact ⟨c, rfl, by simp, rfl, Or.inr rfl⟩
  | cons e rest ih =>
    intro c h
    by_cases he : e = Event.Win
    · subst he
      have hcount : (Event.Win :: rest).count Event.Win =
          rest.count Event.Win + 1 := List.count_cons_self _ _
      have hlt : c.level + 1 < c.map_list.length :=
        h 1 (by omega) (by rw [hcount]; omega)
      obtain ⟨c2, hinc, hlev2, hlist2, hdata2⟩ := increment_level_eq c hlt
      obtain ⟨c3, hc3, hlev3, hlist3, hdata3⟩ := ih c2 (by
        intro j hj hjle
        rw [hlev2, hlist2]
        have := h (j + 1) (by omega) (by rw [hcount]; omega)
        omega)
      refine ⟨c3, ?_, ?_, ?_, ?_⟩
      · simp only [processEvents, if_pos rfl]
        rw [hinc]
        exact hc3
      · rw [hlev3, hlev2, hcount]
        omega
      · rw [hlist3, hlist2]
      · rcases hdata3 with h4 | h4
        · exact Or.inl h4
        · rw [h4]
          exact Or.inl hdata2
    · have hcount : (e :: rest).count Event.Win = rest.count Event.Win := by
        rw [List.count_cons]
        simp [he]
      obtain ⟨c2, h1, h2, h3, h4⟩ := ih c (by
        intro j hj hjle
        exact h j hj (by rw [hcount]; exact hjle))
      refine ⟨c2, ?_, ?_, h3, h4⟩
      · simp only [processEvents, if_neg he]
        exact h1
      · rw [h2, hcount]

/-- Claim C2, counterexample: with the player standing on two `WinPad`
tiles, one `update_all` call runs `increment_level` twice, so the level
index advances by 2, not by exactly 1. -/
theorem update_all_double_win_cex :
    (doubleWinMap.immut_tiles_at doubleWinCtx.player.y
        doubleWinCtx.player.x).countP (fun t => t.tile_type == .WinPad) = 2 ∧
    (doubleWinCtx.update_all).map GameContext.level = some 2 ∧
    (doubleWinCtx.update_all).map GameContext.level ≠
      some (doubleWinCtx.level + 1) := by
  refine ⟨rfl, rfl, by decide⟩

/-- Claim C2, amended: one `update_all` call runs `increment_level` once per
`Win` event, so with `k` `WinPad` tiles under the player the level index
advances by exactly `k` (in particular by exactly 1 when exactly one
`WinPad` is stood on), provided the traversed level indices stay in range. -/
theorem update_all_level_advance (c : GameContext) (m : MapData)
    (hm : c.map_data = some m)
    (hvalid : ∀ j, 0 < j →
      j ≤ (m.immut_tiles_at c.player.y c.player.x).countP
            (fun t => t.tile_type == .WinPad) →
      c.level + j < c.map_list.length) :
    ∃ c2, c.update_all = some c2 ∧
      c2.level = c.level +
        (m.immut_tiles_at c.player.y c.player.x).countP
          (fun t => t.tile_type == .WinPad) := by
  have hev : c.collect_events =
      some ((m.immut_tiles_at c.player.y c.player.x).map
        fun t => t.tile_type.stood_on_event) := by
    unfold GameContext.collect_events
    rw [hm]
  have hcount : ((m.immut_tiles_at c.player.y c.player.x).map
      fun t => t.tile_type.stood_on_event).count Event.Win =
      (m.immut_tiles_at c.player.y c.player.x).countP
        (fun t => t.tile_type == .WinPad) := by
    rw [List.count_eq_countP, List.countP_map]
    refine List.countP_congr ?_
    intro t _
    cases ht : t.tile_type <;>
      simp [Function.comp, TileType.stood_on_event, ht]
  obtain ⟨c2, hproc, hlev, hlist, hdata⟩ := processEvents_level
    ((m.immut_tiles_at c.player.y c.player.x).map
      fun t => t.tile_type.stood_on_event) c (by
        intro j hj hjle
        rw [hcount] at hjle
        exact hvalid j hj hjle)
  have hdata2 : ∃ m2, c2.map_data = some m2 := by
    rcases hdata with hs | heq
    · exact Option.isSome_iff_exists.mp hs
    · rw [heq]
      exact ⟨m, hm⟩
  obtain ⟨m2, hm2⟩ := hdata2
  refine ⟨{ c2 with map_data := some (m2.update_button_status c2.player) },
    ?_, ?_⟩
  · unfold GameContext.update_all
    rw [hev, Option.some_bind, hproc, Option.some_bind, hm2, Option.map_some']
  · show c2.level = _
    rw [hlev, hcount]

/-- Witness for the amended C2 theorem on the double-win session: the level
advances by the number of stood-on win pads (two). -/
theorem update_all_level_advance_witness :
    ∃ c2, doubleWinCtx.update_all = some c2 ∧
      c2.level = doubleWinCtx.level +
        (doubleWinMap.immut_tiles_at doubleWinCtx.player.y
          doubleWinCtx.player.x).countP (fun t => t.tile_type == .WinPad) :=
  update_all_level_advance doubleWinCtx doubleWinMap rfl (by
    intro j hj hjle
    have h2 : (doubleWinMap.immut_tiles_at doubleWinCtx.player.y
        doubleWinCtx.player.x).countP (fun t => t.tile_type == .WinPad) = 2 := rfl
    rw [h2] at hjle
    show 0 + j < 3
    omega)

end BoxGame
